import Mathlib

/-!
Shallow embedding of the core decision logic of the scraper repository
(pagination-and-backoff engine), translated from the Python sources:

* `src/utils/anti_bot.py`   — backoff engine, throttle state, detection heuristics
* `src/utils/pagination.py` — pagination resolver (four ordered strategies)
* `src/scrapers/static_scraper.py` — crawl orchestrator loop

Machine reals (Python floats) are modelled as rationals; every float
operation the embedded code performs (multiplication by 1.5, min with 30,
addition, subtraction, comparison) is exact on the values reachable here,
so the rational model agrees with IEEE semantics on this code.
`random.uniform(a, b)` is modelled as `a + r * (b - a)` for an explicit
draw `r` (the underlying unit sample), so identical draws mean identical `r`.
Wall-clock reads (`time.time()`) are passed in explicitly as `now`.
-/

namespace Scraper

/-! ## ThrottleState (`class AntiBot`, `src/utils/anti_bot.py` lines 8-17)

`max_backoff` is the constant 30.0 set in `__init__`; it is never mutated,
so it is modelled as a constant rather than a field. -/

structure AntiBot where
  request_count : Nat
  start_time : ℚ
  backoff_factor : ℚ
deriving DecidableEq

/-- `self.max_backoff = 30.0` -/
def maxBackoff : ℚ := 30

/-- `AntiBot.__init__`: counters zeroed, `start_time = time.time()` (passed as
`t0`), `backoff_factor = 1.0`. -/
def initAntiBot (t0 : ℚ) : AntiBot :=
  { request_count := 0, start_time := t0, backoff_factor := 1 }

/-- Model of `random.uniform(a, b)` at unit draw `r`. -/
def uniform (a b r : ℚ) : ℚ := a + r * (b - a)

/-- `backoff(increase)` (`anti_bot.py` lines 89-110): the synchronous variant.
Returns the state after the call together with the computed `sleep_time`
(the duration passed to `time.sleep`). `now` is the value of `time.time()`
during the call and `r` the unit draw behind `random.uniform`. -/
def backoff (st : AntiBot) (increase : Bool) (r now : ℚ) : AntiBot × ℚ :=
  let bf : ℚ := if increase then min (st.backoff_factor * (3 / 2)) maxBackoff else 1
  let sleep0 : ℚ := if increase then uniform (bf * 2) (bf * 4) r else uniform 1 3 r
  let rc := st.request_count + 1
  let elapsed := now - st.start_time
  if elapsed < 60 ∧ rc > 10 then
    ({ request_count := 0, start_time := now, backoff_factor := bf },
      sleep0 + (60 - elapsed))
  else
    ({ request_count := rc, start_time := st.start_time, backoff_factor := bf }, sleep0)

/-- `async_backoff(increase)` (`anti_bot.py` lines 112-125): the cooperative
variant. It updates `backoff_factor` and draws the sleep exactly as
`backoff` does, but performs no request tally and no rolling-window logic. -/
def asyncBackoff (st : AntiBot) (increase : Bool) (r : ℚ) : AntiBot × ℚ :=
  let bf : ℚ := if increase then min (st.backoff_factor * (3 / 2)) maxBackoff else 1
  let sleep0 : ℚ := if increase then uniform (bf * 2) (bf * 4) r else uniform 1 3 r
  ({ st with backoff_factor := bf }, sleep0)

/-- One call to the backoff engine: either the blocking `backoff` (with its
`time.time()` reading) or the cooperative `async_backoff`. -/
inductive BCall where
  | sync (increase : Bool) (r now : ℚ)
  | async (increase : Bool) (r : ℚ)
deriving DecidableEq

/-- The `increase` argument of a call. -/
def BCall.increase : BCall → Bool
  | .sync i _ _ => i
  | .async i _ => i

/-- State change of one engine call (sleep value discarded). -/
def stepCall (st : AntiBot) (c : BCall) : AntiBot :=
  match c with
  | .sync i r t => (backoff st i r t).1
  | .async i r => (asyncBackoff st i r).1

/-- Run a sequence of engine calls against the shared state. -/
def runCalls (st : AntiBot) (cs : List BCall) : AntiBot := cs.foldl stepCall st

/-! ## Detection heuristics (`anti_bot.py` lines 127-151)

Pure classification functions.  Python `str.lower()` is modelled by
mapping `Char.toLower` over the character list (identical on the ASCII
texts involved) and the Python substring test `kw in text` by
`containsList` on the character lists. -/

/-- Python `str.lower()` as a character list (ASCII model). -/
def lowerChars (s : String) : List Char := s.toList.map Char.toLower

/-- `startsWithList needle hay`: `hay` begins with `needle`. -/
def startsWithList : List Char → List Char → Bool
  | [], _ => true
  | _ :: _, [] => false
  | c :: cs, h :: hs => c == h && startsWithList cs hs

/-- `containsList needle hay`: `needle` occurs contiguously in `hay`
(the Python substring operator `in`). -/
def containsList (needle : List Char) : List Char → Bool
  | [] => startsWithList needle []
  | h :: t => startsWithList needle (h :: t) || containsList needle t

/-- The apostrophe character (to keep source keyword text verbatim). -/
def apos : Char := Char.ofNat 39

/-- `captcha_indicators` of `detect_captcha`. -/
def captchaIndicators : List String :=
  ["captcha", "recaptcha", "hcaptcha", "cloudflare",
   "please verify", "security check", "robot verification",
   "prove you" ++ String.singleton apos ++ "re human"]

/-- `detect_captcha(response_text)`: any indicator occurring in the
lowercased body. -/
def detectCaptcha (responseText : String) : Bool :=
  captchaIndicators.any fun kw =>
    containsList kw.toList (lowerChars responseText)

/-- `rate_limit_indicators` of `detect_rate_limit`. -/
def rateLimitIndicators : List String :=
  ["rate limit", "too many requests", "slow down", "exceeded",
   "throttled", "temporarily blocked"]

/-- `detect_rate_limit(response_text, status_code)`. -/
def detectRateLimit (responseText : String) (statusCode : Int) : Bool :=
  if statusCode = 429 then true
  else rateLimitIndicators.any fun kw =>
    containsList kw.toList (lowerChars responseText)

/-! ## Page-indicator regular expressions (`pagination.py` lines 110-159)

The source uses four `re` patterns over the URL path, all of the shape
"literal, then an optional or required separator from a small class, then
one or more digits (greedy), then a literal".  They are modelled by
`PagePat` together with `matchPat` (match at the start of a string),
`searchPat` (leftmost match, like `re.search`) and `subPat` (replace every
non-overlapping match, like `re.sub`).  Since the separator class and the
digit class are disjoint, the greedy backtracking of `[-_/]?` is captured
exactly by "consume a separator when present". -/

/-- Numeric value of an ASCII digit. -/
def digitVal (c : Char) : Nat := c.toNat - 48

/-- Python `int` on a digit string (e.g. `int(match.group(1))`). -/
def digitsToNat (ds : List Char) : Nat :=
  ds.foldl (fun a c => a * 10 + digitVal c) 0

/-- Fuelled worker for `natDigits`; fuel `n` always suffices for input `n`. -/
def natDigitsAux : Nat → Nat → List Char
  | 0, n => [Char.ofNat (48 + n % 10)]
  | fuel + 1, n =>
    if n < 10 then [Char.ofNat (48 + n)]
    else natDigitsAux fuel (n / 10) ++ [Char.ofNat (48 + n % 10)]

/-- Python `str` on a natural number: its decimal digits. -/
def natDigits (n : Nat) : List Char := natDigitsAux n n

/-- Python `str` on an integer. -/
def intStr (n : Int) : List Char :=
  if n < 0 then '-' :: natDigits n.natAbs else natDigits n.toNat

/-- Greedy `\d+`-style split: the maximal digit run at the front, and the rest. -/
def takeDigits : List Char → List Char × List Char
  | [] => ([], [])
  | c :: cs =>
    if c.isDigit then
      let p := takeDigits cs
      (c :: p.1, p.2)
    else ([], c :: cs)

/-- Match a literal at the front of a string, returning what follows. -/
def matchLit : List Char → List Char → Option (List Char)
  | [], l => some l
  | _ :: _, [] => none
  | p :: ps, c :: cs => if c = p then matchLit ps cs else none

/-- One of the source regexes: literal `pre`, one separator from `seps`
(required when `sepReq`, `[-_/]?`-optional otherwise; a pattern with no
separator slot has `seps = []`), a nonempty digit group, literal `suf`.
`repPre`/`repSuf` render the corresponding `re.sub` replacement around the
incremented number. -/
structure PagePat where
  pre : List Char
  seps : List Char
  sepReq : Bool
  suf : List Char
  repPre : List Char
  repSuf : List Char

/-- Consume the separator slot of a pattern. -/
def matchSep (seps : List Char) (req : Bool) : List Char → Option (List Char)
  | [] => if seps.isEmpty || !req then some [] else none
  | c :: cs =>
    if seps.isEmpty then some (c :: cs)
    else if seps.contains c then some cs
    else if req then none else some (c :: cs)

/-- Match a `PagePat` at the front of a string, returning the digit group
and the remainder after the whole match. -/
def matchPat (pat : PagePat) (l : List Char) : Option (List Char × List Char) :=
  match matchLit pat.pre l with
  | none => none
  | some r1 =>
    match matchSep pat.seps pat.sepReq r1 with
    | none => none
    | some r2 =>
      match takeDigits r2 with
      | ([], _) => none
      | (ds, r3) =>
        match matchLit pat.suf r3 with
        | none => none
        | some r4 => some (ds, r4)

/-- `re.search`: leftmost match, returning the unmatched part before the
match, the digit group, and the remainder after the match. -/
def searchPat (pat : PagePat) : List Char → Option (List Char × List Char × List Char)
  | [] => none
  | c :: cs =>
    match matchPat pat (c :: cs) with
    | some (ds, rest) => some ([], ds, rest)
    | none =>
      match searchPat pat cs with
      | some (pre0, ds, rest) => some (c :: pre0, ds, rest)
      | none => none

/-- Fuelled worker for `subPat`; every match consumes at least its digit
group, so fuel equal to the length of the input always suffices. -/
def subFuel (pat : PagePat) (repl : List Char) : Nat → List Char → List Char
  | 0, l => l
  | _ + 1, [] => []
  | fuel + 1, c :: cs =>
    match matchPat pat (c :: cs) with
    | some (_, rest) => repl ++ subFuel pat repl fuel rest
    | none => c :: subFuel pat repl fuel cs

/-- `re.sub(pattern, repl, s)`: replace every non-overlapping match,
scanning left to right. -/
def subPat (pat : PagePat) (repl : List Char) (l : List Char) : List Char :=
  subFuel pat repl l.length l

/-- `r'/page[-_/](\d+)'` with replacement `/page-` + number. -/
def patP1 : PagePat :=
  { pre := ['/', 'p', 'a', 'g', 'e'], seps := ['-', '_', '/'], sepReq := true, suf := [],
    repPre := ['/', 'p', 'a', 'g', 'e', '-'], repSuf := [] }

/-- `r'/page[-_/](\d+)/'` with replacement `/page-` + number + `/`. -/
def patP2 : PagePat :=
  { pre := ['/', 'p', 'a', 'g', 'e'], seps := ['-', '_', '/'], sepReq := true, suf := ['/'],
    repPre := ['/', 'p', 'a', 'g', 'e', '-'], repSuf := ['/'] }

/-- `r'page[-_](\d+)\.html'` with replacement `page-` + number + `.html`. -/
def patP3 : PagePat :=
  { pre := ['p', 'a', 'g', 'e'], seps := ['-', '_'], sepReq := true,
    suf := ['.', 'h', 't', 'm', 'l'],
    repPre := ['p', 'a', 'g', 'e', '-'], repSuf := ['.', 'h', 't', 'm', 'l'] }

/-- `r'p(\d+)\.html'` with replacement `p` + number + `.html`. -/
def patP4 : PagePat :=
  { pre := ['p'], seps := [], sepReq := true, suf := ['.', 'h', 't', 'm', 'l'],
    repPre := ['p'], repSuf := ['.', 'h', 't', 'm', 'l'] }

/-- `path_patterns` of `_construct_next_page_url`, in source order. -/
def pathPatterns : List PagePat := [patP1, patP2, patP3, patP4]

/-- `r'/page[-_/]?(\d+)'` of `_extract_page_number` (separator optional). -/
def extractPat : PagePat :=
  { pre := ['/', 'p', 'a', 'g', 'e'], seps := ['-', '_', '/'], sepReq := false, suf := [],
    repPre := [], repSuf := [] }

/-! ## Query strings (`urllib.parse.parse_qs` and friends)

`parse_qs` is modelled without percent/plus decoding (no claim exercises
encoded queries): split on `&`, drop tokens without `=` or with an empty
value, group values under their key in first-occurrence order. -/

/-- `str.split(sep)` on a single character. -/
def splitOnChar (sep : Char) : List Char → List (List Char)
  | [] => [[]]
  | c :: cs =>
    let r := splitOnChar sep cs
    if c = sep then [] :: r
    else
      match r with
      | [] => [[c]]
      | t :: ts => (c :: t) :: ts

/-- Split one `k=v` token; `none` for tokens `parse_qs` drops. -/
def qsSplitKV (tok : List Char) : Option (List Char × List Char) :=
  let k := tok.takeWhile (· ≠ '=')
  match tok.dropWhile (· ≠ '=') with
  | [] => none
  | _ :: v => if v.isEmpty then none else some (k, v)

/-- Append a value under a key, preserving first-occurrence key order. -/
def qsAdd (k v : List Char) :
    List (List Char × List (List Char)) → List (List Char × List (List Char))
  | [] => [(k, [v])]
  | (k0, vs) :: rest =>
    if k0 = k then (k0, vs ++ [v]) :: rest else (k0, vs) :: qsAdd k v rest

/-- `parse_qs(query)`. -/
def parseQs (q : List Char) : List (List Char × List (List Char)) :=
  ((splitOnChar '&' q).filterMap qsSplitKV).foldl (fun acc kv => qsAdd kv.1 kv.2 acc) []

/-- Dictionary lookup, `param in query_params` / `query_params[param]`. -/
def qsLookup (qs : List (List Char × List (List Char))) (k : List Char) :
    Option (List (List Char)) :=
  match qs.find? (fun kv => kv.1 = k) with
  | some kv => some kv.2
  | none => none

/-- `query_params[param] = [str(next_page)]`: replace the value list in place. -/
def qsSetFirst (qs : List (List Char × List (List Char))) (k v : List Char) :
    List (List Char × List (List Char)) :=
  qs.map fun kv => if kv.1 = k then (kv.1, [v]) else kv

/-- Python `int(s)`: optional surrounding spaces, optional sign, digits.
(Other whitespace kinds and underscore separators are not modelled;
no claim exercises them.) -/
def pyInt (s : List Char) : Option Int :=
  let t := ((s.dropWhile (· = ' ')).reverse.dropWhile (· = ' ')).reverse
  match t with
  | '-' :: ds =>
    if !ds.isEmpty && ds.all Char.isDigit then some (-(digitsToNat ds : Int)) else none
  | '+' :: ds =>
    if !ds.isEmpty && ds.all Char.isDigit then some (digitsToNat ds : Int) else none
  | ds =>
    if !ds.isEmpty && ds.all Char.isDigit then some (digitsToNat ds : Int) else none

/-- `'&'.join(f"k={v[0]}" for ...)` of `_construct_next_page_url`. -/
def joinQuery (qs : List (List Char × List (List Char))) : List Char :=
  List.intercalate ['&'] (qs.map fun kv => kv.1 ++ '=' :: kv.2.headD [])

/-! ## `_construct_next_page_url` (`pagination.py` lines 110-141)

A URL is modelled by the two `urlparse` components the function touches:
`path` and `query` (`_replace(...).geturl()` keeps the others verbatim). -/

structure Url where
  path : List Char
  query : List Char
deriving DecidableEq

/-- The `for pattern, replacement in path_patterns` loop: first pattern whose
search succeeds rewrites every occurrence with the first occurrence's
number + 1. -/
def tryPatterns : List PagePat → List Char → Option (List Char)
  | [], _ => none
  | pat :: rest, path =>
    match searchPat pat path with
    | some (_, ds, _) =>
      some (subPat pat (pat.repPre ++ natDigits (digitsToNat ds + 1) ++ pat.repSuf) path)
    | none => tryPatterns rest path

/-- `for param in ['page', 'p', 'pagenum', 'offset', 'start']` fallback:
increment the first such query parameter with an integer first value
(non-integers skipped), re-joining every parameter as `k=firstValue`. -/
def queryIncLoop (qs : List (List Char × List (List Char))) :
    List (List Char) → Option (List Char)
  | [] => none
  | param :: rest =>
    match qsLookup qs param with
    | none => queryIncLoop qs rest
    | some vs =>
      match pyInt (vs.headD []) with
      | none => queryIncLoop qs rest
      | some n => some (joinQuery (qsSetFirst qs param (intStr (n + 1))))

/-- Parameter names of the query fallback, in source order. -/
def constructParams : List (List Char) :=
  ["page".toList, "p".toList, "pagenum".toList, "offset".toList, "start".toList]

/-- `_construct_next_page_url(current_url)`. -/
def constructNextPageUrl (u : Url) : Option Url :=
  match tryPatterns pathPatterns u.path with
  | some newPath => some { path := newPath, query := u.query }
  | none =>
    match queryIncLoop (parseQs u.query) constructParams with
    | some newQuery => some { path := u.path, query := newQuery }
    | none => none

/-! ## `_extract_page_number` (`pagination.py` lines 143-159)

The regex runs over the raw URL string; the query fallback runs over the
`urlparse` query component, extracted here by `queryOfUrl`. -/

/-- The `urlparse(url).query` component: between the first `?` and any
following `#`. -/
def queryOfUrl (url : List Char) : List Char :=
  match (url.takeWhile (· ≠ '#')).dropWhile (· ≠ '?') with
  | [] => []
  | _ :: q => q

/-- Parameter names of the extraction fallback, in source order. -/
def extractParams : List (List Char) := ["page".toList, "p".toList, "pagenum".toList]

/-- The `for param in ['page', 'p', 'pagenum']` loop of `_extract_page_number`. -/
def extractQueryLoop (qs : List (List Char × List (List Char))) :
    List (List Char) → Option Int
  | [] => none
  | param :: rest =>
    match qsLookup qs param with
    | none => extractQueryLoop qs rest
    | some vs =>
      match pyInt (vs.headD []) with
      | none => extractQueryLoop qs rest
      | some n => some n

/-- `_extract_page_number(url)`. -/
def extractPageNumber (url : List Char) : Option Int :=
  match searchPat extractPat url with
  | some (_, ds, _) => some (digitsToNat ds : Int)
  | none => extractQueryLoop (parseQs (queryOfUrl url)) extractParams

/-! ## `_find_numbered_next` (`pagination.py` lines 70-90)

The parsed page (`BeautifulSoup`) is modelled by the one capability the
function uses: for each pagination container selector, the list of
`<a href=...>` links (visible text, href) in document order, when the
selector matches. -/

/-- One pagination link: stripped visible text and href. -/
structure PLink where
  text : String
  href : String
deriving DecidableEq

/-- `pagination_selectors`, in source order. -/
def paginationSelectors : List String :=
  [".pagination", ".pager", ".page-numbers", ".paginate", ".page-nav", ".pagination-wrapper"]

/-- The next-glyph words accepted by the `elif` branch. -/
def nextWords : List String := ["next", ">", "→"]

/-- Python `str.isdigit` (ASCII model). -/
def isDigitString (s : String) : Bool :=
  !s.toList.isEmpty && s.toList.all Char.isDigit

/-- The `for link in page_links` loop: first link whose text is the digits
of `current_page + 1` (when the current page is known and nonzero — Python
truthiness of `current_page`), or whose lowercased text is a next glyph. -/
def linkLoop (currentPage : Option Int) : List PLink → Option String
  | [] => none
  | l :: rest =>
    if isDigitString l.text then
      match currentPage with
      | some cp =>
        if cp ≠ 0 ∧ (digitsToNat l.text.toList : Int) = cp + 1 then some l.href
        else linkLoop currentPage rest
      | none => linkLoop currentPage rest
    else if lowerChars l.text ∈ nextWords.map String.toList then some l.href
    else linkLoop currentPage rest

/-- The `for selector in pagination_selectors` loop: first container whose
link scan yields a result. -/
def selectorLoop (soup : String → Option (List PLink)) (cp : Option Int) :
    List String → Option String
  | [] => none
  | sel :: rest =>
    match soup sel with
    | some links =>
      match linkLoop cp links with
      | some href => some href
      | none => selectorLoop soup cp rest
    | none => selectorLoop soup cp rest

/-- `_find_numbered_next(soup, current_url)`. -/
def findNumberedNext (soup : String → Option (List PLink)) (currentUrl : String) :
    Option String :=
  selectorLoop soup (extractPageNumber currentUrl.toList) paginationSelectors

/-! ## `get_next_page` (`pagination.py` lines 14-43)

Each of the four strategy helpers is a pure function of the parsed page
and the current URL; for one call its result is a fixed optional relative
URL, recorded in `PageCandidates` (field per helper, in call order).
`urljoin` is the external `urllib` function, abstracted as `uj`.  The
`visited_urls` set is threaded explicitly; the function returns the
resolved next URL (if any) together with the updated set. -/

structure PageCandidates where
  findNextButton : Option String
  findNumberedNext : Option String
  findLoadMore : Option String
  constructNext : Option String

/-- One `if next_url: full_url = urljoin(...); if full_url not in self.visited_urls:`
block: a candidate survives when present and fresh after resolution. -/
def tryStrategy (uj : String → String → String) (currentUrl : String)
    (cand : Option String) (visited : List String) : Option String :=
  match cand with
  | none => none
  | some u =>
    let full := uj currentUrl u
    if full ∈ visited then none else some full

/-- `PaginationHandler.get_next_page(soup, current_url)`. -/
def getNextPage (uj : String → String → String) (cands : PageCandidates)
    (currentUrl : String) (visited : List String) : Option String × List String :=
  match tryStrategy uj currentUrl cands.findNextButton visited with
  | some full => (some full, full :: visited)
  | none =>
    match tryStrategy uj currentUrl cands.findNumberedNext visited with
    | some full => (some full, full :: visited)
    | none =>
      match tryStrategy uj currentUrl cands.findLoadMore visited with
      | some full => (some full, full :: visited)
      | none =>
        match tryStrategy uj currentUrl cands.constructNext visited with
        | some full => (some full, full :: visited)
        | none => (none, visited)

/-! ## `StaticScraper.scrape_static` (`static_scraper.py` lines 30-75)

A fetch of one URL either fails (`requests` raised, or `raise_for_status`
raised on a non-2xx response) — modelled as `none` — or yields the page's
extracted product records together with the optional `li.next > a` href.
Record extraction (lines 50-57) is external markup work, so records are an
abstract type.  The unbounded `while current_url:` loop is modelled with a
fuel bound on the number of iterations; every theorem below holds for all
sufficient fuel.  The second component accumulates the URLs actually
fetched, in order. -/

structure FetchPage (α : Type) where
  items : List α
  nextHref : Option String

/-- The `for item in items` loop: append records until
`max_products and len(products) >= max_products` (Python truthiness:
a zero maximum disables the cap). -/
def addItems (maxProducts : Nat) : List α → List α → List α
  | acc, [] => acc
  | acc, x :: xs =>
    if maxProducts ≠ 0 ∧ acc.length ≥ maxProducts then acc
    else addItems maxProducts (acc ++ [x]) xs

/-- `self.base_url`. -/
def baseUrl : String := "https://books.toscrape.com"

/-- The `while current_url:` loop of `scrape_static`. -/
def scrapeLoop (uj : String → String → String) (fetch : String → Option (FetchPage α))
    (maxProducts : Nat) : Nat → Option String → List α → List String → List α × List String
  | _, none, products, fetched => (products, fetched)
  | 0, some _, products, fetched => (products, fetched)
  | fuel + 1, some url, products, fetched =>
    if url = "" then (products, fetched)
    else
      match fetch url with
      | none => (products, fetched ++ [url])
      | some page =>
        let products2 := addItems maxProducts products page.items
        if maxProducts ≠ 0 ∧ products2.length ≥ maxProducts then
          (products2, fetched ++ [url])
        else
          scrapeLoop uj fetch maxProducts fuel (page.nextHref.map (uj url)) products2
            (fetched ++ [url])

/-- `scrape_static(url, max_products)`: `current_url = url or self.base_url`,
then the loop from an empty product list. -/
def scrapeStatic (uj : String → String → String) (fetch : String → Option (FetchPage α))
    (url : String) (maxProducts : Nat) (fuel : Nat) : List α × List String :=
  scrapeLoop uj fetch maxProducts fuel (some (if url = "" then baseUrl else url)) [] []

/-! # Theorems -/

/-! ## Backoff engine: shared single-step lemmas -/

theorem backoff_fst_backoff_factor (st : AntiBot) (i : Bool) (r now : ℚ) :
    (backoff st i r now).1.backoff_factor =
      if i then min (st.backoff_factor * (3 / 2)) maxBackoff else 1 := by
  simp only [backoff]
  split <;> rfl

theorem asyncBackoff_fst_backoff_factor (st : AntiBot) (i : Bool) (r : ℚ) :
    (asyncBackoff st i r).1.backoff_factor =
      if i then min (st.backoff_factor * (3 / 2)) maxBackoff else 1 := rfl

theorem stepCall_backoff_factor (st : AntiBot) (c : BCall) :
    (stepCall st c).backoff_factor =
      if c.increase then min (st.backoff_factor * (3 / 2)) maxBackoff else 1 := by
  cases c with
  | sync i r t => exact backoff_fst_backoff_factor st i r t
  | async i r => exact asyncBackoff_fst_backoff_factor st i r

theorem stepCall_factor_bounds (st : AntiBot) (c : BCall)
    (h1 : 1 ≤ st.backoff_factor) :
    1 ≤ (stepCall st c).backoff_factor ∧ (stepCall st c).backoff_factor ≤ maxBackoff := by
  rw [stepCall_backoff_factor]
  unfold maxBackoff
  split
  · constructor
    · refine le_min (by nlinarith) (by norm_num)
    · exact min_le_right _ _
  · norm_num

theorem runCalls_factor_bounds (st : AntiBot) (cs : List BCall)
    (h1 : 1 ≤ st.backoff_factor) (h2 : st.backoff_factor ≤ maxBackoff) :
    1 ≤ (runCalls st cs).backoff_factor ∧ (runCalls st cs).backoff_factor ≤ maxBackoff := by
  induction cs generalizing st with
  | nil => exact ⟨h1, h2⟩
  | cons c cs ih =>
    have hs := stepCall_factor_bounds st c h1
    simpa only [runCalls, List.foldl_cons] using ih (stepCall st c) hs.1 hs.2

/-- C1. For every sequence of calls to the backoff engine (the blocking
`backoff` or the cooperative `async_backoff`), starting from the freshly
constructed shared state: the factor always stays in `[1, max_backoff]`;
appending one more failure call (`increase=True`) never decreases it; and
immediately after any success call (`increase=False`) it is exactly 1.0. -/
theorem backoff_factor_invariant (t0 : ℚ) (cs : List BCall) (c : BCall) :
    (1 ≤ (runCalls (initAntiBot t0) cs).backoff_factor ∧
      (runCalls (initAntiBot t0) cs).backoff_factor ≤ maxBackoff) ∧
    (c.increase = true →
      (runCalls (initAntiBot t0) cs).backoff_factor ≤
        (runCalls (initAntiBot t0) (cs ++ [c])).backoff_factor) ∧
    (c.increase = false →
      (runCalls (initAntiBot t0) (cs ++ [c])).backoff_factor = 1) := by
  have hinv : 1 ≤ (runCalls (initAntiBot t0) cs).backoff_factor ∧
      (runCalls (initAntiBot t0) cs).backoff_factor ≤ maxBackoff :=
    runCalls_factor_bounds _ _ (by norm_num [initAntiBot]) (by norm_num [initAntiBot, maxBackoff])
  have happ : runCalls (initAntiBot t0) (cs ++ [c]) =
      stepCall (runCalls (initAntiBot t0) cs) c := by
    simp [runCalls, List.foldl_append]
  refine ⟨hinv, ?_, ?_⟩
  · intro hinc
    rw [happ, stepCall_backoff_factor, hinc, if_pos rfl]
    exact le_min (by nlinarith [hinv.1]) hinv.2
  · intro hinc
    rw [happ, stepCall_backoff_factor, hinc]
    rfl

/-- Witness for C1: a concrete failure call does not decrease the factor,
and a concrete success call resets it to 1. -/
theorem backoff_factor_invariant_witness :
    (runCalls (initAntiBot 0) []).backoff_factor ≤
      (runCalls (initAntiBot 0) [BCall.sync true 0 0]).backoff_factor ∧
    (runCalls (initAntiBot 0) [BCall.async false 0]).backoff_factor = 1 :=
  ⟨(backoff_factor_invariant 0 [] (BCall.sync true 0 0)).2.1 rfl,
   (backoff_factor_invariant 0 [] (BCall.async false 0)).2.2 rfl⟩

/-- C2 counterexample: immediately after construction, one success-signal
call mutates the shared state differently in the two variants — the
blocking `backoff` tallies the request (`request_count` becomes 1) while
`async_backoff` leaves the tally untouched, so the resulting
`ThrottleState`s differ for identical inputs and draws. -/
theorem sync_async_state_divergence :
    (backoff (initAntiBot 0) false 0 0).1.request_count = 1 ∧
    (asyncBackoff (initAntiBot 0) false 0).1.request_count = 0 ∧
    (backoff (initAntiBot 0) false 0 0).1 ≠ (asyncBackoff (initAntiBot 0) false 0).1 := by
  refine ⟨by simp [backoff, initAntiBot], rfl, ?_⟩
  intro h
  have := congrArg AntiBot.request_count h
  simp [backoff, asyncBackoff, initAntiBot] at this

/-- C2 (amended). For every state, signal and identical draw, `backoff` and
`async_backoff` compute the same `backoff_factor` update and the same base
delay; but `async_backoff` performs none of the request tally or
rolling-window mutation: it never touches `request_count` or the window
start, and whenever the sync variant's window condition fires, the sync
delay exceeds the async delay by the remaining-window penalty. -/
theorem sync_async_equivalence (st : AntiBot) (i : Bool) (r now : ℚ) :
    (backoff st i r now).1.backoff_factor = (asyncBackoff st i r).1.backoff_factor ∧
    (asyncBackoff st i r).1.request_count = st.request_count ∧
    (asyncBackoff st i r).1.start_time = st.start_time ∧
    (¬(now - st.start_time < 60 ∧ st.request_count + 1 > 10) →
      (backoff st i r now).2 = (asyncBackoff st i r).2 ∧
      (backoff st i r now).1.request_count = st.request_count + 1 ∧
      (backoff st i r now).1.start_time = st.start_time) ∧
    ((now - st.start_time < 60 ∧ st.request_count + 1 > 10) →
      (backoff st i r now).2 = (asyncBackoff st i r).2 + (60 - (now - st.start_time)) ∧
      (backoff st i r now).1.request_count = 0 ∧
      (backoff st i r now).1.start_time = now) := by
  by_cases h : now - st.start_time < 60 ∧ st.request_count + 1 > 10 <;>
    simp [backoff, asyncBackoff, h]

/-- Witness for C2's amended theorem: both conditional branches realized at
concrete states. -/
theorem sync_async_equivalence_witness :
    (backoff (initAntiBot 0) true 0 0).2 = (asyncBackoff (initAntiBot 0) true 0).2 ∧
    (backoff ⟨10, 0, 1⟩ false 0 30).2 = (asyncBackoff ⟨10, 0, 1⟩ false 0).2 + (60 - 30) := by
  constructor
  · exact ((sync_async_equivalence (initAntiBot 0) true 0 0).2.2.2.1 (by
      simp [initAntiBot])).1
  · have h := ((sync_async_equivalence ⟨10, 0, 1⟩ false 0 30).2.2.2.2 (by
      norm_num)).1
    simpa using h

/-- C3. For every sync `backoff` call whose post-increment tally exceeds 10
while under 60 time units have elapsed since the window start: the
returned delay is the branch's base draw plus exactly `60 - elapsed`, the
tally resets to 0, and the window start resets to `now`.  (In particular
this covers the 11th request of a fresh window: `request_count = 10`
before the call.) -/
theorem rolling_window_penalty (st : AntiBot) (i : Bool) (r now : ℚ)
    (h : now - st.start_time < 60 ∧ st.request_count + 1 > 10) :
    (backoff st i r now).2 =
      (if i then
        uniform (min (st.backoff_factor * (3 / 2)) maxBackoff * 2)
          (min (st.backoff_factor * (3 / 2)) maxBackoff * 4) r
       else uniform 1 3 r) + (60 - (now - st.start_time)) ∧
    (backoff st i r now).1.request_count = 0 ∧
    (backoff st i r now).1.start_time = now := by
  cases i <;> simp [backoff, h]

/-- Witness for C3: the 11th request of a window (tally 10, elapsed 0)
pays the full 60-unit remainder and zeroes the tally. -/
theorem rolling_window_penalty_witness :
    (0 : ℚ) - 0 < 60 ∧ (10 : Nat) + 1 > 10 ∧
    (backoff ⟨10, 0, 1⟩ false 0 0).2 = uniform 1 3 0 + 60 ∧
    (backoff ⟨10, 0, 1⟩ false 0 0).1.request_count = 0 ∧
    (backoff ⟨10, 0, 1⟩ false 0 0).1.start_time = 0 := by
  have h := rolling_window_penalty ⟨10, 0, 1⟩ false 0 0 ⟨by norm_num, by norm_num⟩
  exact ⟨by norm_num, by norm_num, by simpa using h.1, h.2.1, h.2.2⟩

/-! ## Pagination resolver: cycle prevention -/

theorem tryStrategy_not_mem (uj : String → String → String) (cu : String)
    (cand : Option String) (visited : List String) (f : String)
    (h : tryStrategy uj cu cand visited = some f) : f ∉ visited := by
  match cand with
  | none => simp [tryStrategy] at h
  | some u =>
    simp only [tryStrategy] at h
    split at h
    · exact absurd h (by simp)
    · cases h
      assumption

theorem getNextPage_spec (uj : String → String → String) (cands : PageCandidates)
    (cu : String) (visited : List String) :
    ((getNextPage uj cands cu visited).1 = none ∧
      (getNextPage uj cands cu visited).2 = visited) ∨
    (∃ f, (getNextPage uj cands cu visited).1 = some f ∧ f ∉ visited ∧
      (getNextPage uj cands cu visited).2 = f :: visited) := by
  unfold getNextPage
  cases h1 : tryStrategy uj cu cands.findNextButton visited with
  | some f => exact Or.inr ⟨f, by simp, tryStrategy_not_mem _ _ _ _ _ h1, by simp⟩
  | none =>
    cases h2 : tryStrategy uj cu cands.findNumberedNext visited with
    | some f => exact Or.inr ⟨f, by simp, tryStrategy_not_mem _ _ _ _ _ h2, by simp⟩
    | none =>
      cases h3 : tryStrategy uj cu cands.findLoadMore visited with
      | some f => exact Or.inr ⟨f, by simp, tryStrategy_not_mem _ _ _ _ _ h3, by simp⟩
      | none =>
        cases h4 : tryStrategy uj cu cands.constructNext visited with
        | some f => exact Or.inr ⟨f, by simp, tryStrategy_not_mem _ _ _ _ _ h4, by simp⟩
        | none => exact Or.inl ⟨by simp, by simp⟩

/-- C4. `get_next_page` never returns a URL already in the visited set, and
any URL it does return has been inserted into the set it leaves behind;
consequently, a second call on the same page against the updated set
cannot return the first result again. -/
theorem getNextPage_no_revisit (uj : String → String → String) (cands : PageCandidates)
    (cu : String) (visited : List String) :
    (∀ f, (getNextPage uj cands cu visited).1 = some f →
      f ∉ visited ∧ f ∈ (getNextPage uj cands cu visited).2) ∧
    (∀ f g, (getNextPage uj cands cu visited).1 = some f →
      (getNextPage uj cands cu ((getNextPage uj cands cu visited).2)).1 = some g →
      g ≠ f) := by
  constructor
  · intro f hf
    rcases getNextPage_spec uj cands cu visited with ⟨h, _⟩ | ⟨f', hf', hmem, hupd⟩
    · rw [h] at hf
      cases hf
    · rw [hf] at hf'
      cases hf'
      exact ⟨hmem, by rw [hupd]; exact List.mem_cons_self _ _⟩
  · intro f g hf hg
    rcases getNextPage_spec uj cands cu ((getNextPage uj cands cu visited).2) with
      ⟨h, _⟩ | ⟨g', hg', hmem, _⟩
    · rw [h] at hg
      cases hg
    · rw [hg] at hg'
      cases hg'
      rcases getNextPage_spec uj cands cu visited with ⟨h1, _⟩ | ⟨f', hf', _, hupd⟩
      · rw [h1] at hf
        cases hf
      · rw [hf] at hf'
        cases hf'
        intro hgf
        apply hmem
        rw [hupd, hgf]
        exact List.mem_cons_self _ _

/-- Witness for C4: with a next-button candidate "a" and a numbered
candidate "b" (relative URLs returned as-is by `urljoin`), the first call
returns "a" and records it; the second call then returns "b" ≠ "a". -/
theorem getNextPage_no_revisit_witness :
    ((getNextPage (fun _ u => u) ⟨some "a", some "b", none, none⟩ "c" []).1 = some "a" ∧
      "a" ∉ ([] : List String) ∧
      "a" ∈ (getNextPage (fun _ u => u) ⟨some "a", some "b", none, none⟩ "c" []).2) ∧
    (("b" : String) ≠ "a") := by
  refine ⟨⟨rfl, ?_, ?_⟩, ?_⟩
  · exact ((getNextPage_no_revisit (fun _ u => u) ⟨some "a", some "b", none, none⟩ "c" []).1
      "a" rfl).1
  · exact ((getNextPage_no_revisit (fun _ u => u) ⟨some "a", some "b", none, none⟩ "c" []).1
      "a" rfl).2
  · exact (getNextPage_no_revisit (fun _ u => u) ⟨some "a", some "b", none, none⟩ "c" []).2
      "a" "b" rfl (by decide)

/-! ## Crawl orchestrator loop -/

/-- C7. On the code as written: when the fetch of the start URL fails
(transport error or non-2xx status via `raise_for_status`), the loop
terminates after that single attempt — there is no retry budget and no
backoff between attempts — returning the records accumulated so far
(here none) rather than raising.  The repository's own tests instead
expect `retry_count == 3` and a second attempt after a 429, so the claim
describes the intended behavior and the code omits it. -/
theorem fetch_failure_single_attempt (uj : String → String → String) (url : String)
    (h : url ≠ "") (maxProducts fuel : Nat) :
    scrapeStatic uj (fun _ => (none : Option (FetchPage Nat))) url maxProducts (fuel + 1) =
      ([], [url]) := by
  simp [scrapeStatic, scrapeLoop, h]

/-- Witness for C7's theorem: the mocked always-failing fetch of the test
suite's URL performs exactly one attempt and returns the empty list. -/
theorem fetch_failure_single_attempt_witness :
    scrapeStatic (fun _ u => u) (fun _ => (none : Option (FetchPage Nat)))
      "https://books.toscrape.com/catalogue/page-1.html" 5 1 =
      ([], ["https://books.toscrape.com/catalogue/page-1.html"]) :=
  fetch_failure_single_attempt (fun _ u => u)
    "https://books.toscrape.com/catalogue/page-1.html" (by decide) 5 0

/-- C8. A crawl with `max_products = 5` over three chained pages yielding
3, 3 and 3 records stops during the second iteration: it truncates the
second page's extraction to reach exactly 5 records, fetches only the
first two URLs (never the third), and this holds for every remaining fuel
budget (the loop breaks, it does not run out of pages). -/
theorem max_records_truncation (n : Nat) :
    scrapeStatic (fun _ h => h)
      (fun u =>
        if u = "u1" then some ⟨[1, 2, 3], some "u2"⟩
        else if u = "u2" then some ⟨[4, 5, 6], some "u3"⟩
        else if u = "u3" then some ⟨[7, 8, 9], none⟩
        else none)
      "u1" 5 (n + 2) = ([1, 2, 3, 4, 5], ["u1", "u2"]) := by
  simp [scrapeStatic, scrapeLoop, addItems]

/-! ## Detection heuristics -/

theorem startsWithList_iff_prefix (p l : List Char) :
    startsWithList p l = true ↔ p <+: l := by
  induction p generalizing l with
  | nil => simp [startsWithList]
  | cons c cs ih =>
    cases l with
    | nil => simp [startsWithList]
    | cons h hs => simp [startsWithList, List.cons_prefix_cons, ih]

theorem containsList_iff_infix (p l : List Char) :
    containsList p l = true ↔ p <:+: l := by
  induction l with
  | nil =>
    simp [containsList, startsWithList_iff_prefix, List.infix_nil]
  | cons h t ih =>
    simp [containsList, startsWithList_iff_prefix, List.infix_cons_iff, ih]

/-- C9. `detect_captcha` returns true exactly when the lowercased body
contains one of the fixed challenge keywords; `detect_rate_limit` returns
true exactly when the status is 429 or the lowercased body contains one of
the fixed rate-limit keywords.  Both are pure functions of their inputs by
construction.  Concretely: "Please Verify you are human" classifies as a
challenge, and "Status 429, Too Many Requests" classifies as rate-limited
through the body signal alone (status 200) as well as through the status
signal alone (empty body). -/
theorem detection_heuristics_spec :
    (∀ body : String, detectCaptcha body = true ↔
      ∃ kw ∈ captchaIndicators, List.IsInfix kw.toList (lowerChars body)) ∧
    (∀ (body : String) (status : Int), detectRateLimit body status = true ↔
      (status = 429 ∨
        ∃ kw ∈ rateLimitIndicators, List.IsInfix kw.toList (lowerChars body))) ∧
    detectCaptcha "Please Verify you are human" = true ∧
    detectRateLimit "Status 429, Too Many Requests" 200 = true ∧
    detectRateLimit "" 429 = true ∧
    detectRateLimit "Status 429, Too Many Requests" 429 = true ∧
    detectCaptcha "an ordinary product listing" = false ∧
    detectRateLimit "an ordinary product listing" 200 = false := by
  refine ⟨?_, ?_, by decide, by decide, by decide, by decide, by decide, by decide⟩
  · intro body
    simp [detectCaptcha, List.any_eq_true, containsList_iff_infix, List.IsInfix]
  · intro body status
    by_cases h : status = 429 <;>
      simp [detectRateLimit, h, List.any_eq_true, containsList_iff_infix, List.IsInfix]

/-! ## Numbered-link pagination strategy -/

/-- C5 counterexample: the strategy does not prefer the `current_page + 1`
link over a "next"-text link.  With current page 2 and a container whose
links are, in document order, a "next" link (href "/hn") and a "3" link
(href "/h3"), the source's single in-order scan returns the earlier
"next" link, not the "3" link the claim requires. -/
theorem numbered_next_counterexample :
    findNumberedNext
      (fun sel => if sel = ".pagination" then
        some [⟨"next", "/hn"⟩, ⟨"3", "/h3"⟩] else none)
      "/page-2" = some "/hn" ∧
    ("/hn" : String) ≠ "/h3" := by decide

/-- C5 (amended). The strategy scans the pagination links in document
order and returns the first link whose text is either the digits of
`current_page + 1` or a "next" glyph/word; in the claimed scenario —
texts ["1", "2", "3", "next"] with current page 2 — the "3" link precedes
the "next" link, so its href is selected. -/
theorem numbered_next_scenario (url : String)
    (h : extractPageNumber url.toList = some 2) (h1 h2 h3 h4 : String) :
    findNumberedNext
      (fun sel => if sel = ".pagination" then
        some [⟨"1", h1⟩, ⟨"2", h2⟩, ⟨"3", h3⟩, ⟨"next", h4⟩] else none)
      url = some h3 := by
  have e1 : isDigitString "1" = true := rfl
  have e2 : isDigitString "2" = true := rfl
  have e3 : isDigitString "3" = true := rfl
  have v1 : (digitsToNat "1".toList : Int) = 1 := rfl
  have v2 : (digitsToNat "2".toList : Int) = 2 := rfl
  have v3 : (digitsToNat "3".toList : Int) = 3 := rfl
  simp only [findNumberedNext, h, paginationSelectors, selectorLoop, linkLoop,
    e1, e2, e3, v1, v2, v3, if_true, if_false]
  norm_num

/-- Witness for C5's amended theorem at the URL "/page-2". -/
theorem numbered_next_scenario_witness :
    extractPageNumber "/page-2".toList = some 2 ∧
    findNumberedNext
      (fun sel => if sel = ".pagination" then
        some [⟨"1", "/p1"⟩, ⟨"2", "/p2"⟩, ⟨"3", "/p3"⟩, ⟨"next", "/pn"⟩] else none)
      "/page-2" = some "/p3" :=
  ⟨by decide, numbered_next_scenario "/page-2" (by decide) "/p1" "/p2" "/p3" "/pn"⟩

theorem linkLoop_unknown_mem (links : List PLink) (href : String)
    (h : linkLoop none links = some href) :
    ∃ l ∈ links, l.href = href ∧ isDigitString l.text = false ∧
      lowerChars l.text ∈ nextWords.map String.toList := by
  induction links with
  | nil => simp [linkLoop] at h
  | cons l rest ih =>
    by_cases hd : isDigitString l.text
    · simp only [linkLoop, hd, if_true] at h
      obtain ⟨l', hmem, hrest⟩ := ih h
      exact ⟨l', List.mem_cons_of_mem _ hmem, hrest⟩
    · by_cases hw : lowerChars l.text ∈ nextWords.map String.toList
      · simp only [linkLoop, hd, hw, if_true, if_false, Bool.false_eq_true,
          Option.some.injEq] at h
        exact ⟨l, List.mem_cons_self _ _, h, by simp [hd], hw⟩
      · simp only [linkLoop, hd, hw, if_false, Bool.false_eq_true] at h
        obtain ⟨l', hmem, hrest⟩ := ih h
        exact ⟨l', List.mem_cons_of_mem _ hmem, hrest⟩

theorem selectorLoop_unknown_mem (soup : String → Option (List PLink))
    (sels : List String) (href : String)
    (h : selectorLoop soup none sels = some href) :
    ∃ sel ∈ sels, ∃ links, soup sel = some links ∧
      ∃ l ∈ links, l.href = href ∧ isDigitString l.text = false ∧
        lowerChars l.text ∈ nextWords.map String.toList := by
  induction sels with
  | nil => simp [selectorLoop] at h
  | cons sel rest ih =>
    cases hs : soup sel with
    | none =>
      rw [selectorLoop, hs] at h
      obtain ⟨sel', hmem, hrest⟩ := ih h
      exact ⟨sel', List.mem_cons_of_mem _ hmem, hrest⟩
    | some links =>
      simp only [selectorLoop, hs] at h
      cases hl : linkLoop none links with
      | none =>
        simp only [hl] at h
        obtain ⟨sel', hmem, hrest⟩ := ih h
        exact ⟨sel', List.mem_cons_of_mem _ hmem, hrest⟩
      | some href2 =>
        simp only [hl, Option.some.injEq] at h
        subst h
        exact ⟨sel, List.mem_cons_self _ _, links, hs,
          linkLoop_unknown_mem links _ hl⟩

/-- C10. When no page number can be extracted from the current URL
(`_extract_page_number` returns `None`), the numbered-link strategy never
returns a digit-text link: every returned href belongs to a link of some
scanned pagination container whose text is not a digit string and whose
lowercased text is one of the "next" glyphs/words. -/
theorem numbered_next_unknown_page (soup : String → Option (List PLink))
    (url : String) (h : extractPageNumber url.toList = none) (href : String)
    (hret : findNumberedNext soup url = some href) :
    ∃ sel ∈ paginationSelectors, ∃ links, soup sel = some links ∧
      ∃ l ∈ links, l.href = href ∧ isDigitString l.text = false ∧
        lowerChars l.text ∈ nextWords.map String.toList := by
  rw [findNumberedNext, h] at hret
  exact selectorLoop_unknown_mem soup paginationSelectors href hret

/-- Witness for C10: a URL with no page indicator and a container holding
one digit link and one "next" link; the strategy returns the "next" href. -/
theorem numbered_next_unknown_page_witness :
    extractPageNumber "/items".toList = none ∧
    (∃ sel ∈ paginationSelectors, ∃ links,
      (fun s => if s = ".pager" then
        some [(⟨"7", "/d7"⟩ : PLink), ⟨"next", "/nx"⟩] else none) sel = some links ∧
      ∃ l ∈ links, l.href = "/nx" ∧ isDigitString l.text = false ∧
        lowerChars l.text ∈ nextWords.map String.toList) :=
  ⟨by decide,
   numbered_next_unknown_page
     (fun s => if s = ".pager" then some [⟨"7", "/d7"⟩, ⟨"next", "/nx"⟩] else none)
     "/items" (by decide) "/nx" (by decide)⟩

/-! ## URL construction: decimal digits -/

theorem natDigitsAux_congr : ∀ (f1 f2 n : Nat), n ≤ f1 → n ≤ f2 →
    natDigitsAux f1 n = natDigitsAux f2 n := by
  intro f1
  induction f1 with
  | zero =>
    intro f2 n h1 h2
    have hn : n = 0 := by omega
    subst hn
    cases f2 <;> simp [natDigitsAux]
  | succ f ih =>
    intro f2 n h1 h2
    cases f2 with
    | zero =>
      have hn : n = 0 := by omega
      subst hn
      simp [natDigitsAux]
    | succ g =>
      simp only [natDigitsAux]
      by_cases hn : n < 10
      · simp [hn]
      · simp only [hn, if_false]
        have hd : n / 10 < n := Nat.div_lt_self (by omega) (by omega)
        rw [ih g (n / 10) (by omega) (by omega)]

theorem natDigits_eq (n : Nat) : natDigits n =
    if n < 10 then [Char.ofNat (48 + n)]
    else natDigits (n / 10) ++ [Char.ofNat (48 + n % 10)] := by
  unfold natDigits
  cases n with
  | zero => simp [natDigitsAux]
  | succ m =>
    simp only [natDigitsAux]
    by_cases h : m + 1 < 10
    · simp [h]
    · simp only [h, if_false]
      have hd : (m + 1) / 10 < m + 1 := Nat.div_lt_self (by omega) (by omega)
      rw [natDigitsAux_congr m ((m + 1) / 10) ((m + 1) / 10) (by omega) (le_refl _)]

theorem natDigits_ne_nil (n : Nat) : natDigits n ≠ [] := by
  rw [natDigits_eq]
  split <;> simp

theorem natDigits_all_digit (n : Nat) : ∀ c ∈ natDigits n, c.isDigit = true := by
  induction n using Nat.strong_induction_on with
  | _ n ih =>
    intro c hc
    rw [natDigits_eq] at hc
    by_cases hn : n < 10
    · rw [if_pos hn] at hc
      simp only [List.mem_singleton] at hc
      subst hc
      interval_cases n <;> decide
    · rw [if_neg hn] at hc
      simp only [List.mem_append, List.mem_singleton] at hc
      rcases hc with hc | hc
      · exact ih (n / 10) (Nat.div_lt_self (by omega) (by omega)) c hc
      · subst hc
        have h10 : n % 10 < 10 := Nat.mod_lt _ (by omega)
        set m := n % 10 with hm
        interval_cases m <;> decide

theorem digitsToNat_append_single (xs : List Char) (c : Char) :
    digitsToNat (xs ++ [c]) = 10 * digitsToNat xs + digitVal c := by
  simp [digitsToNat, List.foldl_append, Nat.mul_comm]

theorem digitsToNat_natDigits (n : Nat) : digitsToNat (natDigits n) = n := by
  induction n using Nat.strong_induction_on with
  | _ n ih =>
    rw [natDigits_eq]
    by_cases hn : n < 10
    · rw [if_pos hn]
      interval_cases n <;> decide
    · rw [if_neg hn, digitsToNat_append_single,
        ih (n / 10) (Nat.div_lt_self (by omega) (by omega))]
      have h10 : n % 10 < 10 := Nat.mod_lt _ (by omega)
      have hval : digitVal (Char.ofNat (48 + n % 10)) = n % 10 := by
        set m := n % 10 with hm
        interval_cases m <;> decide
      rw [hval]
      omega

/-! ## URL construction: regex machinery lemmas -/

theorem matchLit_length : ∀ (p l r : List Char), matchLit p l = some r →
    r.length ≤ l.length := by
  intro p
  induction p with
  | nil =>
    intro l r h
    simp only [matchLit, Option.some.injEq] at h
    subst h
    exact le_refl _
  | cons a ps ih =>
    intro l r h
    cases l with
    | nil => simp [matchLit] at h
    | cons c cs =>
      simp only [matchLit] at h
      by_cases hca : c = a
      · rw [if_pos hca] at h
        have := ih cs r h
        simp only [List.length_cons]
        omega
      · rw [if_neg hca] at h
        cases h

theorem matchSep_length (seps : List Char) (req : Bool) (l r : List Char)
    (h : matchSep seps req l = some r) : r.length ≤ l.length := by
  cases l with
  | nil =>
    simp only [matchSep] at h
    split at h
    · cases h
      exact le_refl _
    · cases h
  | cons c cs =>
    simp only [matchSep] at h
    split at h
    · cases h
      exact le_refl _
    · split at h
      · cases h
        simp only [List.length_cons]
        omega
      · split at h
        · cases h
        · cases h
          exact le_refl _

theorem takeDigits_append_eq : ∀ l : List Char,
    (takeDigits l).1 ++ (takeDigits l).2 = l := by
  intro l
  induction l with
  | nil => rfl
  | cons c cs ih =>
    simp only [takeDigits]
    by_cases h : c.isDigit
    · simp [h, ih]
    · simp [h]

theorem matchPat_length (pat : PagePat) (l ds rest : List Char)
    (h : matchPat pat l = some (ds, rest)) : rest.length < l.length := by
  unfold matchPat at h
  cases h1 : matchLit pat.pre l with
  | none => simp only [h1] at h; cases h
  | some r1 =>
    simp only [h1] at h
    cases h2 : matchSep pat.seps pat.sepReq r1 with
    | none => simp only [h2] at h; cases h
    | some r2 =>
      simp only [h2] at h
      cases h3 : takeDigits r2 with
      | mk ds0 r3 =>
        simp only [h3] at h
        cases ds0 with
        | nil => simp at h
        | cons d ds0t =>
          cases h4 : matchLit pat.suf r3 with
          | none => simp only [h4] at h; cases h
          | some r4 =>
            simp only [h4, Option.some.injEq, Prod.mk.injEq] at h
            obtain ⟨_, hrest⟩ := h
            subst hrest
            have e1 := matchLit_length pat.pre l r1 h1
            have e2 := matchSep_length pat.seps pat.sepReq r1 r2 h2
            have h5 := takeDigits_append_eq r2
            rw [h3] at h5
            have e3 := congrArg List.length h5
            simp [List.length_append] at e3
            have e4 := matchLit_length pat.suf r3 r4 h4
            omega

theorem subFuel_congr (pat : PagePat) (repl : List Char) :
    ∀ (f1 : Nat) (l : List Char) (f2 : Nat), l.length ≤ f1 → l.length ≤ f2 →
      subFuel pat repl f1 l = subFuel pat repl f2 l := by
  intro f1
  induction f1 with
  | zero =>
    intro l f2 h1 h2
    have : l = [] := by
      cases l with
      | nil => rfl
      | cons c cs => simp at h1
    subst this
    cases f2 <;> simp [subFuel]
  | succ f ih =>
    intro l f2 h1 h2
    cases l with
    | nil => cases f2 <;> simp [subFuel]
    | cons c cs =>
      cases f2 with
      | zero => simp at h2
      | succ g =>
        simp only [subFuel]
        cases hm : matchPat pat (c :: cs) with
        | none =>
          show c :: subFuel pat repl f cs = c :: subFuel pat repl g cs
          simp only [List.length_cons] at h1 h2
          rw [ih cs g (by omega) (by omega)]
        | some p =>
          obtain ⟨ds, rest⟩ := p
          have hr := matchPat_length pat (c :: cs) ds rest hm
          show repl ++ subFuel pat repl f rest = repl ++ subFuel pat repl g rest
          simp only [List.length_cons] at h1 h2 hr
          rw [ih rest g (by omega) (by omega)]

theorem subPat_cons_none (pat : PagePat) (repl : List Char) (c : Char)
    (cs : List Char) (h : matchPat pat (c :: cs) = none) :
    subPat pat repl (c :: cs) = c :: subPat pat repl cs := by
  simp only [subPat, List.length_cons, subFuel, h]

theorem subPat_cons_some (pat : PagePat) (repl : List Char) (c : Char)
    (cs ds rest : List Char) (h : matchPat pat (c :: cs) = some (ds, rest)) :
    subPat pat repl (c :: cs) = repl ++ subPat pat repl rest := by
  have hr := matchPat_length pat (c :: cs) ds rest h
  simp only [List.length_cons] at hr
  simp only [subPat, List.length_cons, subFuel, h]
  rw [subFuel_congr pat repl cs.length rest rest.length (by omega) (le_refl _)]

theorem searchPat_cons_none (pat : PagePat) (c : Char) (cs : List Char)
    (h : matchPat pat (c :: cs) = none) :
    searchPat pat (c :: cs) =
      (searchPat pat cs).map (fun x => (c :: x.1, x.2.1, x.2.2)) := by
  simp only [searchPat, h]
  cases hs : searchPat pat cs with
  | none => rfl
  | some x => obtain ⟨a, b, d⟩ := x; rfl

theorem searchPat_cons_some (pat : PagePat) (c : Char) (cs ds rest : List Char)
    (h : matchPat pat (c :: cs) = some (ds, rest)) :
    searchPat pat (c :: cs) = some ([], ds, rest) := by
  simp [searchPat, h]

theorem takeDigits_digits (ds : List Char) (hd : ∀ c ∈ ds, c.isDigit = true)
    (c : Char) (hc : c.isDigit = false) (t : List Char) :
    takeDigits (ds ++ c :: t) = (ds, c :: t) := by
  induction ds with
  | nil => simp [takeDigits, hc]
  | cons d dst ih =>
    have hdd : d.isDigit = true := hd d (List.mem_cons_self _ _)
    have ih2 := ih (fun x hx => hd x (List.mem_cons_of_mem _ hx))
    simp [takeDigits, hdd, ih2]

theorem matchLit_append : ∀ (lit r : List Char), matchLit lit (lit ++ r) = some r := by
  intro lit
  induction lit with
  | nil => intro r; rfl
  | cons a ps ih => intro r; simp [matchLit, ih r]

/-! ## URL construction: pattern 1 on `/catalogue/page-N/` shapes -/

theorem matchPat_patP1_digits (ds t : List Char) (hne : ds ≠ [])
    (hd : ∀ c ∈ ds, c.isDigit = true) :
    matchPat patP1 ('/' :: 'p' :: 'a' :: 'g' :: 'e' :: '-' :: (ds ++ '/' :: t)) =
      some (ds, '/' :: t) := by
  obtain ⟨d, ds0, heq⟩ := List.exists_cons_of_ne_nil hne
  subst heq
  have h1 : matchLit patP1.pre
      ('/' :: 'p' :: 'a' :: 'g' :: 'e' :: '-' :: (d :: ds0 ++ '/' :: t)) =
      some ('-' :: (d :: ds0 ++ '/' :: t)) :=
    matchLit_append patP1.pre ('-' :: (d :: ds0 ++ '/' :: t))
  have h2 : matchSep patP1.seps patP1.sepReq ('-' :: (d :: ds0 ++ '/' :: t)) =
      some (d :: ds0 ++ '/' :: t) := rfl
  have h3 : takeDigits (d :: ds0 ++ '/' :: t) = (d :: ds0, '/' :: t) := by
    have := takeDigits_digits (d :: ds0) hd '/' (by decide) t
    simpa using this
  have h4 : matchLit patP1.suf ('/' :: t) = some ('/' :: t) := rfl
  unfold matchPat
  simp only [h1, h2, h3, h4]

theorem matchPat_patP1_not_slash (c : Char) (hc : c ≠ '/') (l : List Char) :
    matchPat patP1 (c :: l) = none := by
  have h1 : matchLit patP1.pre (c :: l) = none := by
    show matchLit ('/' :: 'p' :: 'a' :: 'g' :: 'e' :: []) (c :: l) = none
    simp [matchLit, hc]
  unfold matchPat
  rw [h1]

theorem matchPat_patP1_slash_not_p (c : Char) (hc : c ≠ 'p') (l : List Char) :
    matchPat patP1 ('/' :: c :: l) = none := by
  have h1 : matchLit patP1.pre ('/' :: c :: l) = none := by
    show matchLit ('/' :: 'p' :: 'a' :: 'g' :: 'e' :: []) ('/' :: c :: l) = none
    simp [matchLit, hc]
  unfold matchPat
  rw [h1]

theorem searchPat_patP1_catalogue (ds t : List Char) (hne : ds ≠ [])
    (hd : ∀ c ∈ ds, c.isDigit = true) :
    searchPat patP1
      ('/' :: 'c' :: 'a' :: 't' :: 'a' :: 'l' :: 'o' :: 'g' :: 'u' :: 'e' ::
        '/' :: 'p' :: 'a' :: 'g' :: 'e' :: '-' :: (ds ++ '/' :: t)) =
      some (['/', 'c', 'a', 't', 'a', 'l', 'o', 'g', 'u', 'e'], ds, '/' :: t) := by
  rw [searchPat_cons_none _ _ _ (matchPat_patP1_slash_not_p 'c' (by decide) _)]
  rw [searchPat_cons_none _ _ _ (matchPat_patP1_not_slash 'c' (by decide) _)]
  rw [searchPat_cons_none _ _ _ (matchPat_patP1_not_slash 'a' (by decide) _)]
  rw [searchPat_cons_none _ _ _ (matchPat_patP1_not_slash 't' (by decide) _)]
  rw [searchPat_cons_none _ _ _ (matchPat_patP1_not_slash 'a' (by decide) _)]
  rw [searchPat_cons_none _ _ _ (matchPat_patP1_not_slash 'l' (by decide) _)]
  rw [searchPat_cons_none _ _ _ (matchPat_patP1_not_slash 'o' (by decide) _)]
  rw [searchPat_cons_none _ _ _ (matchPat_patP1_not_slash 'g' (by decide) _)]
  rw [searchPat_cons_none _ _ _ (matchPat_patP1_not_slash 'u' (by decide) _)]
  rw [searchPat_cons_none _ _ _ (matchPat_patP1_not_slash 'e' (by decide) _)]
  rw [searchPat_cons_some _ _ _ _ _ (matchPat_patP1_digits ds t hne hd)]
  rfl

theorem subPat_patP1_catalogue (repl ds : List Char) (hne : ds ≠ [])
    (hd : ∀ c ∈ ds, c.isDigit = true) :
    subPat patP1 repl
      ('/' :: 'c' :: 'a' :: 't' :: 'a' :: 'l' :: 'o' :: 'g' :: 'u' :: 'e' ::
        '/' :: 'p' :: 'a' :: 'g' :: 'e' :: '-' :: (ds ++ '/' :: [])) =
      '/' :: 'c' :: 'a' :: 't' :: 'a' :: 'l' :: 'o' :: 'g' :: 'u' :: 'e' ::
        (repl ++ ['/']) := by
  rw [subPat_cons_none _ _ _ _ (matchPat_patP1_slash_not_p 'c' (by decide) _)]
  rw [subPat_cons_none _ _ _ _ (matchPat_patP1_not_slash 'c' (by decide) _)]
  rw [subPat_cons_none _ _ _ _ (matchPat_patP1_not_slash 'a' (by decide) _)]
  rw [subPat_cons_none _ _ _ _ (matchPat_patP1_not_slash 't' (by decide) _)]
  rw [subPat_cons_none _ _ _ _ (matchPat_patP1_not_slash 'a' (by decide) _)]
  rw [subPat_cons_none _ _ _ _ (matchPat_patP1_not_slash 'l' (by decide) _)]
  rw [subPat_cons_none _ _ _ _ (matchPat_patP1_not_slash 'o' (by decide) _)]
  rw [subPat_cons_none _ _ _ _ (matchPat_patP1_not_slash 'g' (by decide) _)]
  rw [subPat_cons_none _ _ _ _ (matchPat_patP1_not_slash 'u' (by decide) _)]
  rw [subPat_cons_none _ _ _ _ (matchPat_patP1_not_slash 'e' (by decide) _)]
  rw [subPat_cons_some _ _ _ _ _ _ (matchPat_patP1_digits ds [] hne hd)]
  rfl

/-- C6 counterexample: for the path-matching URL `/catalogue/page_3/` the
claim requires the rest of the path to be preserved (`/catalogue/page_4/`),
but `re.sub`'s replacement template normalizes the separator to `-`, so the
code produces `/catalogue/page-4/` instead. -/
theorem construct_url_counterexample :
    constructNextPageUrl ⟨"/catalogue/page_3/".toList, []⟩ =
      some ⟨"/catalogue/page-4/".toList, []⟩ ∧
    "/catalogue/page-4/".toList ≠ "/catalogue/page_4/".toList := by decide

/-- C6 (amended). For a URL whose path contains a single hyphen-separated
page indicator, `/catalogue/page-N/`, URL construction increments exactly
the numeric segment and preserves the rest of the path, for every N; for
the `_` (or `/`) separator variants the number is still incremented but
the matched segment is rewritten in the canonical `-` form, e.g.
`/catalogue/page_3/` becomes `/catalogue/page-4/`. -/
theorem construct_url_increments (n : Nat) :
    constructNextPageUrl ⟨"/catalogue/page-".toList ++ natDigits n ++ ['/'], []⟩ =
      some ⟨"/catalogue/page-".toList ++ natDigits (n + 1) ++ ['/'], []⟩ ∧
    constructNextPageUrl ⟨"/catalogue/page_3/".toList, []⟩ =
      some ⟨"/catalogue/page-4/".toList, []⟩ := by
  constructor
  · have hne := natDigits_ne_nil n
    have hd := natDigits_all_digit n
    have hsearch := searchPat_patP1_catalogue (natDigits n) [] hne hd
    have hsub := subPat_patP1_catalogue
      (patP1.repPre ++ natDigits (n + 1) ++ patP1.repSuf) (natDigits n) hne hd
    show constructNextPageUrl
        ⟨'/' :: 'c' :: 'a' :: 't' :: 'a' :: 'l' :: 'o' :: 'g' :: 'u' :: 'e' ::
          '/' :: 'p' :: 'a' :: 'g' :: 'e' :: '-' :: (natDigits n ++ '/' :: []), []⟩ =
      some ⟨'/' :: 'c' :: 'a' :: 't' :: 'a' :: 'l' :: 'o' :: 'g' :: 'u' :: 'e' ::
          '/' :: 'p' :: 'a' :: 'g' :: 'e' :: '-' :: (natDigits (n + 1) ++ '/' :: []), []⟩
    simp only [constructNextPageUrl, pathPatterns, tryPatterns]
    rw [hsearch]
    simp only [digitsToNat_natDigits]
    rw [hsub]
    simp [patP1]
  · decide

end Scraper
